import Mathlib

/-!
Shallow embedding of the heybabe TLS fragmentation core: the `sni` package
(TLS record reader and ClientHello decoder) and the `bepass/tlsfrag` package
(the fragmenting transport adapter).  Byte sequences are modelled as
`List Nat` with values below 256 on the wire; machine-int arithmetic in the
source only ever combines bytes into 16- or 24-bit big-endian values, which
Nat represents exactly.  I/O is modelled by explicit lists: the input stream
of the record reader is the list of bytes still unread (the growable block
buffer of the source only moves bytes between an internal buffer and the
stream, so the concatenation "buffered ++ unread" is the faithful state),
and the underlying transport is a trace of the slices written plus a list of
scripted per-call success flags.  The randomness of rand.Intn is an oracle
list of naturals; rand.Intn n is modelled as r % n, whose image over all
oracles is exactly the interval [0, n).  Unbounded loops of the source carry
a fuel parameter; fuel exhaustion is a distinct marker never equal to any
result the Go code can produce.
-/

namespace Heybabe

/-- Errors of the sni package: an underlying read ended before the required
bytes were available, the SSLv2 heuristic rejection, the generic
"not a tls packet" rejection, and the fuel marker of the embedding. -/
inductive SniErr where
  | truncated
  | sslv2
  | notTLS
  | fuelOut
deriving DecidableEq

/-- The parsed ClientHello message, `ClientHelloMsg` of the sni package.
Go strings and byte slices are both byte lists here. -/
structure ClientHelloMsg where
  Raw : List Nat
  Versions : Nat
  Random : List Nat
  SessionID : List Nat
  CipherSuites : List Nat
  CompressionMethods : List Nat
  NextProtoNeg : Bool
  ServerName : List Nat
  OcspStapling : Bool
  SupportedCurves : List Nat
  SupportedPoints : List Nat
  TicketSupported : Bool
  SessionTicket : Option (List Nat)
deriving DecidableEq

/-- Reads `k` big-endian 16-bit values from the front of `d`, as in the
cipher-suite and supported-curves loops of `unmarshal`. -/
def u16List : Nat → List Nat → List Nat
  | 0, _ => []
  | k + 1, d => (d.getD 0 0 * 256 + d.getD 1 0) :: u16List k (d.drop 2)

/-- The server_name entry scan of `unmarshal`: walks up to `numNames`
entries, each 1-byte name type and 2-byte length followed by the name
bytes; `none` is a structural parse failure, `some none` means the loop
finished without a type-0 entry, `some (some nm)` is the break on the
first type-0 entry. -/
def scanNames : Nat → List Nat → Option (Option (List Nat))
  | 0, _ => some none
  | i + 1, d =>
    match d with
    | nameType :: l1 :: l2 :: dr =>
      let nameLen := l1 * 256 + l2
      if dr.length < nameLen then none
      else if nameType = 0 then some (some (dr.take nameLen))
      else scanNames i (dr.drop nameLen)
    | _ => none

/-- One arm of the extension switch of `unmarshal`.  `ext` is the 16-bit
extension type, `elen` its declared body length, `rest` the bytes from the
body onward (the source scans the server_name entries over everything that
remains, not only the declared body, so `rest` is not truncated), `m` the
message built so far. -/
def updateExt (ext elen : Nat) (rest : List Nat) (m : ClientHelloMsg) : Option ClientHelloMsg :=
  if ext = 0 then
    if elen < 2 then none
    else
      let numNames := rest.getD 0 0 * 256 + rest.getD 1 0
      match scanNames numNames (rest.drop 2) with
      | none => none
      | some none => some m
      | some (some nm) => some { m with ServerName := nm }
  else if ext = 13172 then
    if 0 < elen then none else some { m with NextProtoNeg := true }
  else if ext = 5 then
    if elen < 1 then none
    else if rest.getD 0 0 = 1 then some { m with OcspStapling := true }
    else some m
  else if ext = 10 then
    if elen < 2 then none
    else
      let lVal := rest.getD 0 0 * 256 + rest.getD 1 0
      if lVal % 2 ≠ 0 ∨ elen ≠ lVal + 2 then none
      else some { m with SupportedCurves := u16List (lVal / 2) (rest.drop 2) }
  else if ext = 11 then
    if elen < 1 then none
    else
      let lVal := rest.getD 0 0
      if elen ≠ lVal + 1 then none
      else some { m with SupportedPoints := (rest.drop 1).take lVal }
  else if ext = 35 then
    some { m with TicketSupported := true, SessionTicket := some (rest.take elen) }
  else some m

/-- The extension loop of `unmarshal`: 2-byte type, 2-byte length, body;
the loop advances by the declared length.  Fuel bounds the iteration count;
every iteration consumes at least four bytes, so fuel equal to the initial
length never runs out. -/
def parseExtensions : Nat → List Nat → ClientHelloMsg → Option ClientHelloMsg
  | _, [], m => some m
  | 0, _ :: _, _ => none
  | fuel + 1, data, m =>
    if data.length < 4 then none
    else
      let ext := data.getD 0 0 * 256 + data.getD 1 0
      let elen := data.getD 2 0 * 256 + data.getD 3 0
      let rest := data.drop 4
      if rest.length < elen then none
      else
        match updateExt ext elen rest m with
        | none => none
        | some m2 => parseExtensions fuel (rest.drop elen) m2

/-- `unmarshal` of the sni package: decodes a complete handshake-layer
ClientHello byte sequence, `none` on any structural failure. -/
def unmarshal (data : List Nat) : Option ClientHelloMsg :=
  if data.length < 42 then none
  else
    let versions := data.getD 4 0 * 256 + data.getD 5 0
    let random := (data.drop 6).take 32
    let sessionIDLen := data.getD 38 0
    if 32 < sessionIDLen ∨ data.length < 39 + sessionIDLen then none
    else
      let sessionID := (data.drop 39).take sessionIDLen
      let d1 := data.drop (39 + sessionIDLen)
      if d1.length < 2 then none
      else
        let cipherSuiteLen := d1.getD 0 0 * 256 + d1.getD 1 0
        if cipherSuiteLen % 2 = 1 ∨ d1.length < 2 + cipherSuiteLen then none
        else
          let cipherSuites := u16List (cipherSuiteLen / 2) (d1.drop 2)
          let d2 := d1.drop (2 + cipherSuiteLen)
          if d2.length < 1 then none
          else
            let compressionMethodsLen := d2.getD 0 0
            if d2.length < 1 + compressionMethodsLen then none
            else
              let compressionMethods := (d2.drop 1).take compressionMethodsLen
              let d3 := d2.drop (1 + compressionMethodsLen)
              let m : ClientHelloMsg :=
                { Raw := data, Versions := versions, Random := random,
                  SessionID := sessionID, CipherSuites := cipherSuites,
                  CompressionMethods := compressionMethods,
                  NextProtoNeg := false, ServerName := [],
                  OcspStapling := false, SupportedCurves := [],
                  SupportedPoints := [], TicketSupported := false,
                  SessionTicket := none }
              if d3.length = 0 then some m
              else if d3.length < 2 then none
              else
                let extensionsLength := d3.getD 0 0 * 256 + d3.getD 1 0
                let d4 := d3.drop 2
                if extensionsLength ≠ d4.length then none
                else parseExtensions d4.length d4 m

/-- `readRecord` of `ReadClientHello`: needs the 5 header bytes (an input
shorter than the header is a truncated stream), rejects type byte 0x80
(SSLv2 heuristic) before anything else, then rejects a non-handshake type
or a version of 0x1000 or more, then needs the declared payload, and
returns the payload together with the unconsumed remainder of the input. -/
def readRecord (input : List Nat) : Except SniErr (List Nat × List Nat) :=
  match input with
  | typ :: b1 :: b2 :: b3 :: b4 :: rest =>
    if typ = 128 then .error .sslv2
    else
      let versions := b1 * 256 + b2
      let n := b3 * 256 + b4
      if typ ≠ 22 ∨ 4096 ≤ versions then .error .notTLS
      else if rest.length < n then .error .truncated
      else .ok (rest.take n, rest.drop n)
  | _ => .error .truncated

/-- The accumulation loop of `ReadClientHello`: while fewer than `need`
handshake bytes are gathered, read another record and append its payload. -/
def readRecordsUntil (need : Nat) : List Nat → List Nat → Nat → Except SniErr (List Nat × List Nat)
  | hand, input, 0 =>
    if need ≤ hand.length then .ok (hand, input) else .error .fuelOut
  | hand, input, fuel + 1 =>
    if need ≤ hand.length then .ok (hand, input)
    else
      match readRecord input with
      | .error e => .error e
      | .ok (p, rest) => readRecordsUntil need (hand ++ p) rest fuel

/-- `ReadClientHello` of the sni package: reads the first record, requires
at least 4 handshake bytes, reads the 24-bit message length from bytes
1-3, keeps reading records until 4+n bytes are gathered, checks the
handshake type byte, and decodes.  Each successful record read consumes at
least five input bytes, so fuel `input.length + 1` never runs out. -/
def ReadClientHello (input : List Nat) : Except SniErr ClientHelloMsg :=
  match readRecord input with
  | .error e => .error e
  | .ok (p, rest) =>
    match p with
    | _ :: l1 :: l2 :: l3 :: _ =>
      let n := l1 * 65536 + l2 * 256 + l3
      match readRecordsUntil (4 + n) p rest (rest.length + 1) with
      | .error e => .error e
      | .ok (hand, _) =>
        let data := hand.take (4 + n)
        if data.getD 0 0 ≠ 1 then .error .notTLS
        else
          match unmarshal data with
          | none => .error .notTLS
          | some m => .ok m
    | _ => .error .notTLS

/-! The tlsfrag package.  The underlying `net.Conn` is modelled by a world
`W`: a script of per-call success flags (an empty script means every
remaining call succeeds, matching the Go io.Writer contract that a nil
error implies the full slice was written) and the trace of slices
successfully written so far. -/

/-- The underlying transport: scripted responses plus the write trace. -/
structure W where
  resps : List Bool
  trace : List (List Nat)
deriving DecidableEq

/-- One call of `a.conn.Write(p)`: on success the whole slice is written
and appended to the trace; on a scripted failure nothing is written and
the count is zero. -/
def connWrite (w : W) (p : List Nat) : (Nat × Bool) × W :=
  match w.resps with
  | [] => ((p.length, true), { resps := [], trace := w.trace ++ [p] })
  | r :: rs =>
    if r then ((p.length, true), { resps := rs, trace := w.trace ++ [p] })
    else ((0, false), { resps := rs, trace := w.trace })

/-- The length and delay draw of `writeFragments`: when max - min > 0 the
source calls rand.Intn(max - min) + min (Intn returns a value in
[0, max - min)), otherwise the fixed value min is used.  `r` is the
random oracle value consumed by the Intn call. -/
def fragDraw (lo hi r : Nat) : Nat :=
  if 0 < hi - lo then r % (hi - lo) + lo else lo

/-- The adapter configuration: fragment-size ranges for the before-SNI,
SNI and after-SNI zones and the inter-fragment delay range. -/
structure Cfg where
  BSL : Nat × Nat
  SL : Nat × Nat
  ASL : Nat × Nat
  Delay : Nat × Nat
deriving DecidableEq

/-- The loop of `writeFragments` over one zone: draw a fragment length,
clamp it to the remaining bytes, draw a delay (consuming the oracle the
same way the source consumes the shared generator), write the fragment,
and on a write error return count 0 with the error as the source does.
`rem` is the unwritten suffix b[position:], `nw` the accumulated count.
Fuel exhaustion (`none`) marks the diverging runs in which the clamped
fragment length stays zero forever. -/
def writeFragsLoop (lo hi dlo dhi : Nat) (rem : List Nat) (nw : Nat) (rng : List Nat)
    (w : W) (fuel : Nat) : Option ((Nat × Bool) × List Nat × W) :=
  if rem.length = 0 then some ((nw, true), rng, w)
  else
    match fuel with
    | 0 => none
    | fuel + 1 =>
      let fl0 := fragDraw lo hi (rng.headD 0)
      let rng1 := if 0 < hi - lo then rng.tail else rng
      let fl := if rem.length < fl0 then rem.length else fl0
      let rng2 := if 0 < dhi - dlo then rng1.tail else rng1
      let res := connWrite w (rem.take fl)
      if res.1.2 then
        writeFragsLoop lo hi dlo dhi (rem.drop fl) (nw + res.1.1) rng2 res.2 fuel
      else some ((0, false), rng2, res.2)

/-- `writeFragments` of the adapter: selects the size range by the zone
index (0 before SNI, 1 the SNI itself, otherwise after SNI) and runs the
fragmentation loop over the zone bytes. -/
def writeFragments (cfg : Cfg) (b : List Nat) (index : Nat) (rng : List Nat) (w : W)
    (fuel : Nat) : Option ((Nat × Bool) × List Nat × W) :=
  let lr := if index = 0 then cfg.BSL else if index = 1 then cfg.SL else cfg.ASL
  writeFragsLoop lr.1 lr.2 cfg.Delay.1 cfg.Delay.2 b 0 rng w fuel

/-- bytes.Index: the first index at which `pat` occurs as a contiguous
sub-slice of `b`, `none` when absent; an empty pattern occurs at 0. -/
def idxOf? : List Nat → List Nat → Option Nat
  | [], pat => if pat.isPrefixOf ([] : List Nat) then some 0 else none
  | a :: t, pat => if pat.isPrefixOf (a :: t) then some 0 else (idxOf? t pat).map (· + 1)

/-- `fragmentAndWriteFirstPacket`: parse the ClientHello from the outgoing
bytes; on a parse failure or when the server-name bytes are not found in
the buffer, write the buffer as-is; otherwise split at the located SNI
into the three zones and fragment each in order, aborting with count 0 on
the first zone whose write fails. -/
def fragmentAndWriteFirstPacket (cfg : Cfg) (b : List Nat) (rng : List Nat) (w : W)
    (fuel : Nat) : Option ((Nat × Bool) × List Nat × W) :=
  match ReadClientHello b with
  | .error _ =>
    let res := connWrite w b
    some (res.1, rng, res.2)
  | .ok hello =>
    let helloPacketSni := hello.ServerName
    match idxOf? b helloPacketSni with
    | none =>
      let res := connWrite w b
      some (res.1, rng, res.2)
    | some index =>
      let chunk0 := b.take index
      let chunk1 := (b.drop index).take helloPacketSni.length
      let chunk2 := b.drop (index + helloPacketSni.length)
      match writeFragments cfg chunk0 0 rng w fuel with
      | none => none
      | some ((n0, okb0), rng1, w1) =>
        if okb0 = false then some ((0, false), rng1, w1)
        else
          match writeFragments cfg chunk1 1 rng1 w1 fuel with
          | none => none
          | some ((n1, okb1), rng2, w2) =>
            if okb1 = false then some ((0, false), rng2, w2)
            else
              match writeFragments cfg chunk2 2 rng2 w2 fuel with
              | none => none
              | some ((n2, okb2), rng3, w3) =>
                if okb2 = false then some ((0, false), rng3, w3)
                else some ((n0 + n1 + n2, true), rng3, w3)

/-- `Write` of the adapter: the first component of the result is the
`isFirstWrite` flag after the call, which the source sets to false before
dispatching; a first write goes through `fragmentAndWriteFirstPacket`,
every later write is a single direct write of the buffer. -/
def AdapterWrite (cfg : Cfg) (isFirstWrite : Bool) (b : List Nat) (rng : List Nat)
    (w : W) (fuel : Nat) : Bool × Option ((Nat × Bool) × List Nat × W) :=
  if isFirstWrite then (false, fragmentAndWriteFirstPacket cfg b rng w fuel)
  else
    let res := connWrite w b
    (false, some (res.1, rng, res.2))

/-- `Read` of the adapter: `connResult` is the pair (count, success) the
underlying transport read returned; the source forwards it on success and
returns count 0 with the error otherwise.  The write-side flag is a
parameter only to state that the result does not depend on it. -/
def AdapterRead (isFirstWrite : Bool) (connResult : Nat × Bool) : Nat × Bool :=
  if connResult.2 then connResult else (0, false)

/-! Concrete byte vectors used by counterexamples and witnesses. -/

/-- Handshake body of a minimal valid ClientHello with no extensions:
version 3.3, 32 zero random bytes, empty session id, one cipher suite
(0x0035), one compression method (0).  41 bytes. -/
def chBody : List Nat := [3, 3] ++ List.replicate 32 0 ++ [0] ++ [0, 2, 0, 53] ++ [1, 0]

/-- The handshake-layer message wrapping `chBody`: type 1, 24-bit length
41.  45 bytes; it decodes successfully with an empty server name. -/
def chMsgData : List Nat := [1, 0, 0, 41] ++ chBody

/-- A single TLS record (type 22, version 3.1, length 45) carrying
`chMsgData`.  50 bytes. -/
def b0 : List Nat := [22, 3, 1, 0, 45] ++ chMsgData

/-- A policy whose three size ranges are the fixed value 1 and whose delay
range is the fixed value 0: every zone is written in 1-byte fragments. -/
def cfg0 : Cfg := ⟨(1, 1), (1, 1), (1, 1), (0, 0)⟩

/-- A policy like `cfg0` but with fixed 25-byte post-SNI fragments, so the
50-byte `b0` is written as exactly two fragments. -/
def cfg1 : Cfg := ⟨(1, 1), (1, 1), (25, 25), (0, 0)⟩

/-- The bytes of the ASCII string "hello world": valid non-TLS data. -/
def hw : List Nat := [104, 101, 108, 108, 111, 32, 119, 111, 114, 108, 100]

/-- The draw is never below the lower bound of its range. -/
theorem fragDraw_ge (lo hi r : Nat) : lo ≤ fragDraw lo hi r := by
  unfold fragDraw
  split
  · exact Nat.le_add_left lo _
  · exact Nat.le_refl lo

/-- Claim C5: decoding fails with no partial result on a session-id length
byte of 33, on an odd cipher-suite list length of 3, and on an extensions
block whose declared length differs from the remaining byte count; and a
record whose type byte is 0x80 is rejected by the record reader from the 5
header bytes alone, whatever (or whether any) payload bytes follow. -/
theorem c5_rejection_boundaries :
    unmarshal (List.replicate 38 0 ++ [33] ++ List.replicate 3 0) = none ∧
    unmarshal (List.replicate 38 0 ++ [0, 0, 3, 0]) = none ∧
    unmarshal (List.replicate 38 0 ++ [0] ++ [0, 0] ++ [0] ++ [0, 5] ++ [1, 2, 3]) = none ∧
    ∀ (b1 b2 b3 b4 : Nat) (rest : List Nat),
      readRecord (128 :: b1 :: b2 :: b3 :: b4 :: rest) = .error .sslv2 := by
  refine ⟨by rfl, by rfl, by rfl, ?_⟩
  intro b1 b2 b3 b4 rest
  rfl

/-- Claim C8, counterexample: with the size range [0, 1], the claim says 1
(the maximum) is a possible draw; in fact rand.Intn(1 - 0) + 0 is always
0, so no oracle value draws 1. -/
theorem c8_counterexample : ¬ ∃ r : Nat, fragDraw 0 1 r = 1 := by
  rintro ⟨r, h⟩
  simp [fragDraw, Nat.mod_one] at h

/-- Claim C8, amended: when min < max the drawn value ranges over exactly
the half-open interval [min, max) — every such integer is attainable and
max itself never is; when max ≤ min the fixed value min is used. -/
theorem c8_draw_amended (lo hi : Nat) :
    (lo < hi →
      (∀ r, lo ≤ fragDraw lo hi r ∧ fragDraw lo hi r < hi) ∧
      (∀ v, lo ≤ v → v < hi → ∃ r, fragDraw lo hi r = v)) ∧
    (hi ≤ lo → ∀ r, fragDraw lo hi r = lo) := by
  constructor
  · intro hlt
    constructor
    · intro r
      refine ⟨fragDraw_ge lo hi r, ?_⟩
      unfold fragDraw
      have hpos : 0 < hi - lo := by omega
      rw [if_pos hpos]
      have := Nat.mod_lt r hpos
      omega
    · intro v hv1 hv2
      refine ⟨v - lo, ?_⟩
      unfold fragDraw
      have hpos : 0 < hi - lo := by omega
      rw [if_pos hpos, Nat.mod_eq_of_lt (by omega)]
      omega
  · intro hge r
    unfold fragDraw
    rw [if_neg (by omega)]

/-- Claim C8, witness: at the range [0, 2] and oracle value 5 the draw
lies in [0, 2). -/
theorem c8_witness : 0 ≤ fragDraw 0 2 5 ∧ fragDraw 0 2 5 < 2 :=
  ((c8_draw_amended 0 2).1 (by decide)).1 5

/-- Claim C9, counterexample: when the underlying transport read returns
count 5 with an error, the adapter returns count 0 with the error, not
the underlying count. -/
theorem c9_counterexample : AdapterRead true (5, false) ≠ (5, false) := by decide

/-- Claim C9, amended: Read ignores the write-side first-write flag; on a
successful underlying read it passes count and success through unchanged,
and on an underlying error it returns count 0 with the error (dropping
the underlying count). -/
theorem c9_read_amended (st st2 : Bool) (r : Nat × Bool) :
    AdapterRead st r = AdapterRead st2 r ∧
    (r.2 = true → AdapterRead st r = r) ∧
    (r.2 = false → AdapterRead st r = (0, false)) := by
  refine ⟨rfl, ?_, ?_⟩
  · intro h
    simp [AdapterRead, h]
  · intro h
    simp [AdapterRead, h]

/-- Claim C9, witness: a successful underlying read of 7 bytes passes
through unchanged. -/
theorem c9_witness : AdapterRead true (7, true) = (7, true) :=
  (c9_read_amended true false (7, true)).2.1 rfl

/-- With a size-range minimum of at least 1 the fragmentation loop always
returns within `rem.length` iterations: every clamped fragment length is
positive, so the unwritten suffix strictly shrinks. -/
theorem wfLoop_term (lo hi dlo dhi : Nat) (h1 : 1 ≤ lo) :
    ∀ (fuel : Nat) (rem : List Nat) (nw : Nat) (rng : List Nat) (w : W),
      rem.length ≤ fuel →
      (writeFragsLoop lo hi dlo dhi rem nw rng w fuel).isSome = true := by
  intro fuel
  induction fuel with
  | zero =>
    intro rem nw rng w hle
    have h0 : rem.length = 0 := Nat.le_zero.mp hle
    simp [writeFragsLoop, h0]
  | succ fuel ih =>
    intro rem nw rng w hle
    by_cases h0 : rem.length = 0
    · simp [writeFragsLoop, h0]
    · rw [writeFragsLoop]
      simp only [h0, if_false]
      have hfl0 : 1 ≤ fragDraw lo hi (rng.headD 0) := le_trans h1 (fragDraw_ge lo hi _)
      rcases hcw : connWrite w (rem.take (if rem.length < fragDraw lo hi (rng.headD 0)
          then rem.length else fragDraw lo hi (rng.headD 0))) with ⟨⟨tnw, okb⟩, w1⟩
      cases okb with
      | false => simp [hcw]
      | true =>
        simp only [hcw]
        refine ih _ _ _ _ ?_
        have : 1 ≤ (if rem.length < fragDraw lo hi (rng.headD 0)
            then rem.length else fragDraw lo hi (rng.headD 0)) := by
          split <;> omega
        rw [List.length_drop]
        omega

/-- With the size range [0, 0] and an always-succeeding transport the
fragmentation loop never makes progress on non-empty data: every fragment
length is 0 and the loop runs forever (fuel exhaustion at every fuel). -/
theorem wfLoop_zero_stuck (dlo dhi : Nat) :
    ∀ (fuel : Nat) (rem : List Nat) (nw : Nat) (rng : List Nat) (w : W),
      rem ≠ [] → w.resps = [] →
      writeFragsLoop 0 0 dlo dhi rem nw rng w fuel = none := by
  intro fuel
  induction fuel with
  | zero =>
    intro rem nw rng w hne _
    have h0 : ¬ rem.length = 0 := by simpa using hne
    simp [writeFragsLoop, h0]
  | succ fuel ih =>
    intro rem nw rng w hne hresp
    have h0 : ¬ rem.length = 0 := by simpa using hne
    rw [writeFragsLoop]
    simp only [h0, if_false]
    have hfl : fragDraw 0 0 (rng.headD 0) = 0 := by simp [fragDraw]
    obtain ⟨resps, tr⟩ := w
    simp only [W.resps] at hresp
    subst hresp
    simp only [hfl, Nat.sub_zero, Nat.lt_irrefl, if_false, Nat.not_lt_zero,
      List.take_zero, List.drop_zero, connWrite, Nat.add_zero]
    exact ih rem nw _ _ hne rfl

/-- Claim C10: when the zone size range has minimum at least 1, the
fragmentation loop terminates within one iteration per input byte,
whatever the transport responses; and without that precondition, with the
range [0, 0] permitted by the construction contract, the loop makes no
progress on non-empty data (it diverges for every fuel under an
always-succeeding transport). -/
theorem c10_termination (lo hi dlo dhi : Nat) :
    (1 ≤ lo →
      ∀ (fuel : Nat) (rem : List Nat) (nw : Nat) (rng : List Nat) (w : W),
        rem.length ≤ fuel →
        (writeFragsLoop lo hi dlo dhi rem nw rng w fuel).isSome = true) ∧
    (∀ (fuel : Nat) (rem : List Nat) (nw : Nat) (rng : List Nat) (w : W),
      rem ≠ [] → w.resps = [] →
      writeFragsLoop 0 0 dlo dhi rem nw rng w fuel = none) :=
  ⟨fun h1 => wfLoop_term lo hi dlo dhi h1, wfLoop_zero_stuck dlo dhi⟩

/-- Claim C10, witness: the loop over one byte with the fixed range
[1, 1] returns at fuel 1, and the loop over one byte with range [0, 0]
diverges at fuel 3. -/
theorem c10_witness :
    (writeFragsLoop 1 1 0 0 [9] 0 [] ⟨[], []⟩ 1).isSome = true ∧
    writeFragsLoop 0 0 0 0 [9] 0 [] ⟨[], []⟩ 3 = none :=
  ⟨(c10_termination 1 1 0 0).1 (by decide) 1 [9] 0 [] ⟨[], []⟩ (by decide),
   (c10_termination 1 1 0 0).2 3 [9] 0 [] ⟨[], []⟩ (by decide) rfl⟩

/-- Claim C2: the first-write flag is false (Started) after every call to
Write, whichever path the call takes and however it ends — the source
clears it before dispatching; and a call in the Started state performs
exactly one write of the unmodified input to the underlying transport. -/
theorem c2_first_write_flag :
    (∀ (cfg : Cfg) (st : Bool) (b rng : List Nat) (w : W) (fuel : Nat),
      (AdapterWrite cfg st b rng w fuel).1 = false) ∧
    (∀ (cfg : Cfg) (b rng : List Nat) (w : W) (fuel : Nat),
      w.resps = [] →
      AdapterWrite cfg false b rng w fuel =
        (false, some ((b.length, true), rng, ⟨[], w.trace ++ [b]⟩))) := by
  constructor
  · intro cfg st b rng w fuel
    unfold AdapterWrite
    split <;> rfl
  · intro cfg b rng w fuel hresp
    obtain ⟨resps, tr⟩ := w
    simp only [W.resps] at hresp
    subst hresp
    simp [AdapterWrite, connWrite]

/-- Claim C2, witness: a first write leaves the flag false, and a later
write of [5] on a fresh transport is the single unmodified write [[5]]. -/
theorem c2_witness :
    (AdapterWrite cfg0 true [] [] ⟨[], []⟩ 0).1 = false ∧
    AdapterWrite cfg0 false [5] [] ⟨[], []⟩ 0 =
      (false, some ((1, true), [], ⟨[], [[5]]⟩)) :=
  ⟨c2_first_write_flag.1 cfg0 true [] [] ⟨[], []⟩ 0,
   c2_first_write_flag.2 cfg0 [5] [] ⟨[], []⟩ 0 rfl⟩

/-- What one transport write call guarantees: on success the full slice is
appended to the trace with its length as the count, on failure nothing is
written and the count is 0, and with an empty (always-succeed) script the
call succeeds and the script stays empty. -/
theorem connWrite_spec (w : W) (p : List Nat) (tnw : Nat) (okb : Bool) (w1 : W)
    (h : connWrite w p = ((tnw, okb), w1)) :
    (okb = true → tnw = p.length ∧ w1.trace = w.trace ++ [p]) ∧
    (okb = false → tnw = 0 ∧ w1.trace = w.trace) ∧
    (w.resps = [] → okb = true ∧ w1.resps = []) := by
  obtain ⟨resps, tr⟩ := w
  cases resps with
  | nil =>
    simp only [connWrite] at h
    cases h
    simp
  | cons r rs =>
    cases r with
    | true =>
      simp only [connWrite, if_true, if_pos] at h
      cases h
      simp
    | false =>
      simp only [connWrite, if_neg] at h
      cases h
      simp

/-- The central invariant of the fragmentation loop: whenever the loop
returns, the slices it wrote extend the trace by a list of fragments whose
concatenation is a prefix of the zone; on success that concatenation is
the whole zone and the count grows by exactly the zone length; on failure
the returned count is 0; and an always-succeeding transport forces
success. -/
theorem writeFragsLoop_spec (lo hi dlo dhi : Nat) :
    ∀ (fuel : Nat) (rem : List Nat) (nw : Nat) (rng : List Nat) (w : W)
      (n : Nat) (okb : Bool) (rng2 : List Nat) (w2 : W),
      writeFragsLoop lo hi dlo dhi rem nw rng w fuel = some ((n, okb), rng2, w2) →
      ∃ ts : List (List Nat),
        w2.trace = w.trace ++ ts ∧
        (∃ t, ts.flatten ++ t = rem) ∧
        (okb = true → ts.flatten = rem ∧ n = nw + rem.length) ∧
        (okb = false → n = 0) ∧
        (w.resps = [] → okb = true ∧ w2.resps = []) := by
  intro fuel
  induction fuel with
  | zero =>
    intro rem nw rng w n okb rng2 w2 h
    by_cases h0 : rem.length = 0
    · rw [writeFragsLoop, if_pos h0] at h
      obtain ⟨rfl⟩ : rem = [] := List.length_eq_zero.mp h0
      cases h
      exact ⟨[], by simp⟩
    · rw [writeFragsLoop, if_neg h0] at h
      cases h
  | succ fuel ih =>
    intro rem nw rng w n okb rng2 w2 h
    by_cases h0 : rem.length = 0
    · rw [writeFragsLoop, if_pos h0] at h
      obtain ⟨rfl⟩ : rem = [] := List.length_eq_zero.mp h0
      cases h
      exact ⟨[], by simp⟩
    · rw [writeFragsLoop, if_neg h0] at h
      simp only at h
      rcases hcw : connWrite w (rem.take (if rem.length < fragDraw lo hi (rng.headD 0)
          then rem.length else fragDraw lo hi (rng.headD 0))) with ⟨⟨tnw, okb1⟩, w1⟩
      rw [hcw] at h
      obtain ⟨hwin, hwfail, hwall⟩ := connWrite_spec w _ tnw okb1 w1 hcw
      cases okb1 with
      | false =>
        simp only [if_neg] at h
        cases h
        obtain ⟨-, htr⟩ := hwfail rfl
        refine ⟨[], by simpa using htr.symm ▸ rfl, ⟨rem, by simp⟩, ?_, fun _ => rfl, ?_⟩
        · intro hcontra
          cases hcontra
        · intro hre
          exact absurd (hwall hre).1 (by simp)
      | true =>
        simp only [if_pos] at h
        obtain ⟨htnw, htr⟩ := hwin rfl
        obtain ⟨ts1, hts1, ⟨t1, hpre1⟩, hok1, hfail1, hall1⟩ := ih _ _ _ _ _ _ _ _ h
        refine ⟨rem.take (if rem.length < fragDraw lo hi (rng.headD 0)
            then rem.length else fragDraw lo hi (rng.headD 0)) :: ts1, ?_, ?_, ?_, ?_, ?_⟩
        · rw [hts1, htr, List.append_assoc]
          rfl
        · refine ⟨t1, ?_⟩
          rw [List.flatten_cons, List.append_assoc, hpre1, List.take_append_drop]
        · intro hok
          obtain ⟨hj, hn⟩ := hok1 hok
          constructor
          · rw [List.flatten_cons, hj, List.take_append_drop]
          · rw [hn, htnw, List.length_drop, List.length_take]
            omega
        · intro hfail
          exact hfail1 hfail
        · intro hre
          obtain ⟨-, h1resps⟩ := hwall hre
          exact hall1 h1resps

/-- The three zones cut at the SNI position reassemble to the buffer. -/
theorem chunks_append (b : List Nat) (i L : Nat) :
    b.take i ++ (b.drop i).take L ++ b.drop (i + L) = b := by
  rw [List.append_assoc, ← List.drop_drop, List.take_append_drop, List.take_append_drop]

/-- Claim C1: starting from an empty trace on an always-succeeding
transport, whenever the fragmenting first write returns successfully the
fragments written, concatenated in order, are exactly the input, and the
returned count is the input length. -/
theorem c1_first_write_roundtrip (cfg : Cfg) (b rng : List Nat) (fuel n : Nat)
    (rng2 : List Nat) (w2 : W)
    (h : fragmentAndWriteFirstPacket cfg b rng ⟨[], []⟩ fuel = some ((n, true), rng2, w2)) :
    w2.trace.flatten = b ∧ n = b.length := by
  unfold fragmentAndWriteFirstPacket at h
  rcases hrc : ReadClientHello b with e | hello <;> rw [hrc] at h <;> dsimp only at h
  · simp only [connWrite] at h
    cases h
    simp
  · rcases hidx : idxOf? b hello.ServerName with _ | i <;> rw [hidx] at h <;> dsimp only at h
    · simp only [connWrite] at h
      cases h
      simp
    · 
      rcases hw0 : writeFragments cfg (b.take i) 0 rng ⟨[], []⟩ fuel
        with _ | ⟨⟨n0, okb0⟩, rng1, w1⟩ <;> rw [hw0] at h
      · cases h
      cases okb0 with
      | false => simp at h
      | true =>
        simp only [Bool.true_eq_false, if_neg, reduceIte] at h
        rcases hw1 : writeFragments cfg ((b.drop i).take hello.ServerName.length) 1 rng1 w1 fuel
          with _ | ⟨⟨n1, okb1⟩, rng21, w21⟩ <;> rw [hw1] at h
        · cases h
        cases okb1 with
        | false => simp at h
        | true =>
          simp only [Bool.true_eq_false, if_neg, reduceIte] at h
          rcases hw2 : writeFragments cfg (b.drop (i + hello.ServerName.length)) 2 rng21 w21 fuel
            with _ | ⟨⟨n2, okb2⟩, rng31, w31⟩ <;> rw [hw2] at h
          · cases h
          cases okb2 with
          | false => simp at h
          | true =>
            simp only [Bool.true_eq_false, if_neg, reduceIte, Option.some.injEq,
              Prod.mk.injEq] at h
            obtain ⟨⟨hn, -⟩, -, hw2eq⟩ := h
            subst hw2eq
            simp only [writeFragments, reduceIte] at hw0 hw1 hw2
            obtain ⟨ts0, htr0, -, hok0, -, hall0⟩ :=
              writeFragsLoop_spec _ _ _ _ _ _ _ _ _ _ _ _ _ hw0
            obtain ⟨hokb0, hresp1⟩ := hall0 rfl
            obtain ⟨ts1, htr1, -, hok1, -, hall1⟩ :=
              writeFragsLoop_spec _ _ _ _ _ _ _ _ _ _ _ _ _ hw1
            obtain ⟨hokb1, hresp2⟩ := hall1 hresp1
            obtain ⟨ts2, htr2, -, hok2, -, hall2⟩ :=
              writeFragsLoop_spec _ _ _ _ _ _ _ _ _ _ _ _ _ hw2
            obtain ⟨hj0, hn0⟩ := hok0 rfl
            obtain ⟨hj1, hn1⟩ := hok1 rfl
            obtain ⟨hj2, hn2⟩ := hok2 rfl
            constructor
            · rw [htr2, htr1, htr0]
              simp only [List.nil_append, List.flatten_append, hj0, hj1, hj2]
              exact chunks_append b i hello.ServerName.length
            · rw [← hn, hn0, hn1, hn2]
              have hlen := congrArg List.length (chunks_append b i hello.ServerName.length)
              simp only [List.length_append] at hlen
              omega

/-- Claim C1, witness: a 3-byte non-TLS buffer takes the fallback path of
the first write; the single fragment written is the buffer itself and the
returned count is 3. -/
theorem c1_witness :
    ([[1, 2, 3]] : List (List Nat)).flatten = [1, 2, 3] ∧ 3 = ([1, 2, 3] : List Nat).length :=
  c1_first_write_roundtrip cfg0 [1, 2, 3] [] 0 3 [] ⟨[], [[1, 2, 3]]⟩ (by rfl)

/-- Claim C7, counterexample: with 1-byte fragments and a transport that
accepts the first sub-write and rejects the second, the first fragment
(the record-type byte 22 of `b0`) is successfully written — one byte sent
before the failure — yet the call returns count 0, not 1. -/
theorem c7_counterexample :
    fragmentAndWriteFirstPacket cfg0 b0 [] ⟨[true, false], []⟩ 60 =
      some ((0, false), [], ⟨[], [[22]]⟩) ∧
    ([[22]] : List (List Nat)).flatten.length = 1 :=
  ⟨by rfl, by rfl⟩

/-- Claim C7, amended: an underlying write error aborts the whole first
write immediately and returns the error, but with a count of 0 rather
than the number of bytes already written; what was written before the
failure extends the trace by fragments forming a prefix of the input. -/
theorem c7_error_amended (cfg : Cfg) (b rng : List Nat) (w : W) (fuel n : Nat)
    (rng2 : List Nat) (w2 : W)
    (h : fragmentAndWriteFirstPacket cfg b rng w fuel = some ((n, false), rng2, w2)) :
    n = 0 ∧ ∃ ts : List (List Nat), w2.trace = w.trace ++ ts ∧ ∃ t, ts.flatten ++ t = b := by
  unfold fragmentAndWriteFirstPacket at h
  rcases hrc : ReadClientHello b with e | hello <;> rw [hrc] at h <;> dsimp only at h
  · rcases hcw : connWrite w b with ⟨⟨cn, cok⟩, w1⟩
    rw [hcw] at h
    simp only [Option.some.injEq, Prod.mk.injEq] at h
    obtain ⟨⟨hn, hok⟩, -, hw2⟩ := h
    subst hw2
    obtain ⟨-, hfail, -⟩ := connWrite_spec w b cn cok w1 hcw
    obtain ⟨hcn, htr⟩ := hfail hok
    exact ⟨by omega, [], by simpa using htr, b, rfl⟩
  · rcases hidx : idxOf? b hello.ServerName with _ | i <;> rw [hidx] at h <;> dsimp only at h
    · rcases hcw : connWrite w b with ⟨⟨cn, cok⟩, w1⟩
      rw [hcw] at h
      simp only [Option.some.injEq, Prod.mk.injEq] at h
      obtain ⟨⟨hn, hok⟩, -, hw2⟩ := h
      subst hw2
      obtain ⟨-, hfail, -⟩ := connWrite_spec w b cn cok w1 hcw
      obtain ⟨hcn, htr⟩ := hfail hok
      exact ⟨by omega, [], by simpa using htr, b, rfl⟩
    · rcases hw0 : writeFragments cfg (b.take i) 0 rng w fuel
        with _ | ⟨⟨n0, okb0⟩, rng1, w1⟩ <;> rw [hw0] at h
      · cases h
      simp only [writeFragments, reduceIte] at hw0
      obtain ⟨ts0, htr0, ⟨t0, hpre0⟩, hok0, hfail0, -⟩ :=
        writeFragsLoop_spec _ _ _ _ _ _ _ _ _ _ _ _ _ hw0
      cases okb0 with
      | false =>
        simp only [reduceIte, Option.some.injEq, Prod.mk.injEq] at h
        obtain ⟨⟨hn, -⟩, -, hw2⟩ := h
        subst hw2
        refine ⟨hn.symm, ts0, htr0, t0 ++ b.drop i, ?_⟩
        rw [← List.append_assoc, hpre0, List.take_append_drop]
      | true =>
        simp only [Bool.true_eq_false, reduceIte] at h
        obtain ⟨hj0, -⟩ := hok0 rfl
        rcases hw1 : writeFragments cfg ((b.drop i).take hello.ServerName.length) 1 rng1 w1 fuel
          with _ | ⟨⟨n1, okb1⟩, rng21, w21⟩ <;> rw [hw1] at h
        · cases h
        simp only [writeFragments, reduceIte, Nat.one_ne_zero] at hw1
        obtain ⟨ts1, htr1, ⟨t1, hpre1⟩, hok1, hfail1, -⟩ :=
          writeFragsLoop_spec _ _ _ _ _ _ _ _ _ _ _ _ _ hw1
        cases okb1 with
        | false =>
          simp only [reduceIte, Option.some.injEq, Prod.mk.injEq] at h
          obtain ⟨⟨hn, -⟩, -, hw2⟩ := h
          subst hw2
          refine ⟨hn.symm, ts0 ++ ts1, ?_, t1 ++ b.drop (i + hello.ServerName.length), ?_⟩
          · rw [htr1, htr0, List.append_assoc]
          · calc (ts0 ++ ts1).flatten ++ (t1 ++ b.drop (i + hello.ServerName.length))
                = b.take i ++ ((ts1.flatten ++ t1) ++ b.drop (i + hello.ServerName.length)) := by
                  rw [List.flatten_append, hj0]
                  simp [List.append_assoc]
              _ = b := by rw [hpre1, ← List.append_assoc, chunks_append]
        | true =>
          simp only [Bool.true_eq_false, reduceIte] at h
          obtain ⟨hj1, -⟩ := hok1 rfl
          rcases hw2 : writeFragments cfg (b.drop (i + hello.ServerName.length)) 2 rng21 w21 fuel
            with _ | ⟨⟨n2, okb2⟩, rng31, w31⟩ <;> rw [hw2] at h
          · cases h
          simp only [writeFragments, reduceIte, Nat.succ_ne_zero] at hw2
          obtain ⟨ts2, htr2, ⟨t2, hpre2⟩, hok2, hfail2, -⟩ :=
            writeFragsLoop_spec _ _ _ _ _ _ _ _ _ _ _ _ _ hw2
          cases okb2 with
          | false =>
            simp only [reduceIte, Option.some.injEq, Prod.mk.injEq] at h
            obtain ⟨⟨hn, -⟩, -, hw2e⟩ := h
            subst hw2e
            refine ⟨hn.symm, ts0 ++ ts1 ++ ts2, ?_, t2, ?_⟩
            · rw [htr2, htr1, htr0]
              simp [List.append_assoc]
            · calc (ts0 ++ ts1 ++ ts2).flatten ++ t2
                  = b.take i ++ (b.drop i).take hello.ServerName.length ++ (ts2.flatten ++ t2) := by
                    simp only [List.flatten_append, hj0, hj1]
                    simp [List.append_assoc]
                _ = b := by rw [hpre2, chunks_append]
          | true => simp at h

/-- Claim C7, witness: at the concrete failing run of `c7_counterexample`
the amended statement evaluates: the returned count is 0 and the single
fragment written before the failure is a prefix of `b0`. -/
theorem c7_witness :
    (0 : Nat) = 0 ∧
    ∃ ts : List (List Nat), ([[22]] : List (List Nat)) = [] ++ ts ∧ ∃ t, ts.flatten ++ t = b0 :=
  c7_error_amended cfg0 b0 [] ⟨[true, false], []⟩ 60 0 [] ⟨[], [[22]]⟩ (by rfl)

/-- Claim C6, counterexample: `b0` is a valid ClientHello whose decoded
server name is the empty string, yet the first write does not write the
buffer once unmodified — it does not stay one write:
separate writes — shown here with fixed 25-byte post-SNI fragments, under
which it performs two writes, because the search for the empty
server-name bytes finds index 0 and the whole buffer becomes the
post-SNI zone. -/
theorem c6_counterexample :
    (ReadClientHello b0).toOption.map (fun m => m.ServerName) = some [] ∧
    ((fragmentAndWriteFirstPacket cfg1 b0 [] ⟨[], []⟩ 60).map fun out => out.2.2.trace.length)
      = some 2 ∧
    (2 : Nat) ≠ 1 :=
  ⟨by rfl, by rfl, by decide⟩

/-- Claim C6, amended: the unmodified single-write fallback fires exactly
when ClientHello parsing fails or when the server-name bytes cannot be
located in the buffer; an empty decoded server name does not fall back
(the empty string is found at index 0 and the whole buffer is fragmented
as the post-SNI zone). -/
theorem c6_fallback_amended (cfg : Cfg) (b rng : List Nat) (w : W) (fuel : Nat)
    (hresp : w.resps = [])
    (hf : (∃ e, ReadClientHello b = .error e) ∨
          (∃ m, ReadClientHello b = .ok m ∧ idxOf? b m.ServerName = none)) :
    fragmentAndWriteFirstPacket cfg b rng w fuel =
      some ((b.length, true), rng, ⟨[], w.trace ++ [b]⟩) := by
  obtain ⟨resps, tr⟩ := w
  simp only [W.resps] at hresp
  subst hresp
  rcases hf with ⟨e, he⟩ | ⟨m, hm, hidx⟩
  · unfold fragmentAndWriteFirstPacket
    rw [he]
    simp [connWrite]
  · unfold fragmentAndWriteFirstPacket
    rw [hm]
    dsimp only
    rw [hidx]
    simp [connWrite]

/-- Claim C6, witness: the non-TLS buffer "hello world" fails to parse and
is written exactly once, unmodified and unfragmented. -/
theorem c6_witness :
    fragmentAndWriteFirstPacket cfg0 hw [] ⟨[], []⟩ 0 = some ((11, true), [], ⟨[], [hw]⟩) :=
  c6_fallback_amended cfg0 hw [] ⟨[], []⟩ 0 rfl (Or.inl ⟨.notTLS, by rfl⟩)

/-- Encoding of one server_name entry: 1-byte name type, 2-byte big-endian
name length, name bytes. -/
def encName (t : Nat) (nm : List Nat) : List Nat :=
  t :: (nm.length / 256) :: (nm.length % 256) :: nm

/-- Encoding of a list of server_name entries, concatenated in order. -/
def encNames (es : List (Nat × List Nat)) : List Nat :=
  (es.map fun e => encName e.1 e.2).flatten

/-- The entry scan returns the name of the first type-0 entry: any
well-formed entries of non-zero type before it are skipped, the declared
count may exceed the entries scanned by any amount, and any bytes after
the matched entry (well-formed or not) are never examined. -/
theorem scanNames_found (pre : List (Nat × List Nat)) :
    ∀ (k : Nat) (nm rest : List Nat), (∀ e ∈ pre, e.1 ≠ 0) →
      scanNames (pre.length + 1 + k) (encNames pre ++ (encName 0 nm ++ rest)) =
        some (some nm) := by
  induction pre with
  | nil =>
    intro k nm rest _
    have hc : ([] : List (Nat × List Nat)).length + 1 + k = k + 1 := by simp; omega
    rw [hc]
    have henc : encNames [] = [] := rfl
    rw [henc, List.nil_append]
    simp only [encName, List.cons_append, scanNames]
    have hnl : nm.length / 256 * 256 + nm.length % 256 = nm.length := by omega
    rw [hnl, if_neg (by rw [List.length_append]; omega)]
    simp only [if_true, reduceIte]
    rw [List.take_left]
  | cons e pre ih =>
    intro k nm rest hpre
    obtain ⟨t, wn⟩ := e
    have ht : t ≠ 0 := hpre (t, wn) (by simp)
    have hc : ((t, wn) :: pre).length + 1 + k = (pre.length + 1 + k) + 1 := by simp; omega
    rw [hc]
    have henc : encNames ((t, wn) :: pre) = encName t wn ++ encNames pre := by
      simp [encNames]
    rw [henc, List.append_assoc]
    simp only [encName, List.cons_append, scanNames]
    have hwl : wn.length / 256 * 256 + wn.length % 256 = wn.length := by omega
    rw [hwl, if_neg (by rw [List.length_append]; omega), if_neg ht, List.drop_left]
    exact ih k nm rest fun e2 he2 => hpre e2 (List.mem_cons_of_mem _ he2)

/-- Claim C3: in the server_name extension the decoder uses exactly the
first type-0 entry — for a well-formed entry list whose earlier entries
all have non-zero type, the decoded message is the input message with the
server name set to that entry's bytes; the scan stops there, so the
declared count beyond that entry and all bytes after it are irrelevant. -/
theorem c3_sni_first_type0 (m : ClientHelloMsg) (pre : List (Nat × List Nat)) (nm : List Nat)
    (k : Nat) (rest : List Nat) (elen : Nat) (hlen : 2 ≤ elen)
    (hpre : ∀ e ∈ pre, e.1 ≠ 0) :
    updateExt 0 elen
      (((pre.length + 1 + k) / 256) :: ((pre.length + 1 + k) % 256)
        :: (encNames pre ++ (encName 0 nm ++ rest))) m
      = some { m with ServerName := nm } := by
  unfold updateExt
  rw [if_pos rfl, if_neg (by omega)]
  have hn : (((pre.length + 1 + k) / 256) :: ((pre.length + 1 + k) % 256)
        :: (encNames pre ++ (encName 0 nm ++ rest))).getD 0 0 * 256 +
      (((pre.length + 1 + k) / 256) :: ((pre.length + 1 + k) % 256)
        :: (encNames pre ++ (encName 0 nm ++ rest))).getD 1 0 = pre.length + 1 + k := by
    show (pre.length + 1 + k) / 256 * 256 + (pre.length + 1 + k) % 256 = pre.length + 1 + k
    omega
  rw [hn]
  dsimp only
  have hd : (((pre.length + 1 + k) / 256) :: ((pre.length + 1 + k) % 256)
        :: (encNames pre ++ (encName 0 nm ++ rest))).drop 2 =
      encNames pre ++ (encName 0 nm ++ rest) := rfl
  rw [hd, scanNames_found pre k nm rest hpre]

/-- A ClientHello message value with every field at its zero value, used
to instantiate witnesses. -/
def m0 : ClientHelloMsg :=
  { Raw := [], Versions := 0, Random := [], SessionID := [], CipherSuites := [],
    CompressionMethods := [], NextProtoNeg := false, ServerName := [],
    OcspStapling := false, SupportedCurves := [], SupportedPoints := [],
    TicketSupported := false, SessionTicket := none }

/-- Claim C3, witness: with one leading type-1 entry (name [7]), a type-0
entry with name [8], and trailing garbage [9, 9], the decoded server name
is [8]. -/
theorem c3_witness :
    updateExt 0 2
      ((([((1 : Nat), [(7 : Nat)])].length + 1 + 0) / 256)
        :: (([((1 : Nat), [(7 : Nat)])].length + 1 + 0) % 256)
        :: (encNames [((1 : Nat), [(7 : Nat)])] ++ (encName 0 [8] ++ [9, 9]))) m0
      = some { m0 with ServerName := [8] } :=
  c3_sni_first_type0 m0 [(1, [7])] [8] 0 [9, 9] 2 (by decide) (by decide)

/-- Encoding of one TLS record carrying payload `p`: handshake type 22,
two version bytes, 2-byte big-endian payload length, payload. -/
def encRecord (v1 v2 : Nat) (p : List Nat) : List Nat :=
  22 :: v1 :: v2 :: (p.length / 256) :: (p.length % 256) :: p

/-- Reading a well-formed record off the front of the stream yields its
payload and leaves the rest of the stream untouched. -/
theorem readRecord_enc (v1 v2 : Nat) (p rest : List Nat) (hv1 : v1 < 16) (hv2 : v2 < 256)
    (hp : p.length < 65536) :
    readRecord (encRecord v1 v2 p ++ rest) = .ok (p, rest) := by
  show readRecord (22 :: v1 :: v2 :: (p.length / 256) :: (p.length % 256) :: (p ++ rest)) = _
  simp only [readRecord]
  rw [if_neg (by omega)]
  rw [if_neg (by push_neg; exact ⟨rfl, by omega⟩)]
  have hn : p.length / 256 * 256 + p.length % 256 = p.length := by omega
  rw [hn, if_neg (by rw [List.length_append]; omega), List.take_left, List.drop_left]

/-- The accumulation loop exits at once when enough bytes are gathered. -/
theorem readRecordsUntil_done (need : Nat) (hand input : List Nat) (fuel : Nat)
    (h : need ≤ hand.length) :
    readRecordsUntil need hand input fuel = .ok (hand, input) := by
  cases fuel <;> rw [readRecordsUntil, if_pos h]

/-- One iteration of the accumulation loop on a readable record. -/
theorem readRecordsUntil_step (need : Nat) (hand input p rest : List Nat) (fuel : Nat)
    (h : ¬ need ≤ hand.length) (hr : readRecord input = .ok (p, rest)) :
    readRecordsUntil need hand input (fuel + 1) = readRecordsUntil need (hand ++ p) rest fuel := by
  rw [readRecordsUntil, if_neg h, hr]

/-- One iteration of the accumulation loop on a failing record read. -/
theorem readRecordsUntil_err (need : Nat) (hand input : List Nat) (fuel : Nat) (e : SniErr)
    (h : ¬ need ≤ hand.length) (hr : readRecord input = .error e) :
    readRecordsUntil need hand input (fuel + 1) = .error e := by
  rw [readRecordsUntil, if_neg h, hr]

/-- Claim C4: a ClientHello handshake message split over two well-formed
TLS records (each with its own 5-byte header) decodes exactly as the
single-record equivalent — the reader keeps accumulating records until
the 24-bit length at handshake bytes 1-3 plus the 4-byte header is
gathered.  The first record must carry at least the 4 handshake header
bytes (the reader reads the length from the first record alone). -/
theorem c4_two_record_reassembly (v1 v2 : Nat) (p1 p2 : List Nat)
    (hv1 : v1 < 16) (hv2 : v2 < 256) (h4 : 4 ≤ p1.length)
    (hl12 : p1.length + p2.length < 65536) :
    ReadClientHello (encRecord v1 v2 p1 ++ encRecord v1 v2 p2) =
      ReadClientHello (encRecord v1 v2 (p1 ++ p2)) := by
  have hl1 : p1.length < 65536 := by omega
  have hl2 : p2.length < 65536 := by omega
  have hl12e : (p1 ++ p2).length < 65536 := by rw [List.length_append]; omega
  have hrr2 : readRecord (encRecord v1 v2 p2) = .ok (p2, []) := by
    have := readRecord_enc v1 v2 p2 [] hv1 hv2 hl2
    rwa [List.append_nil] at this
  have hrr12 : readRecord (encRecord v1 v2 (p1 ++ p2)) = .ok (p1 ++ p2, []) := by
    have := readRecord_enc v1 v2 (p1 ++ p2) [] hv1 hv2 hl12e
    rwa [List.append_nil] at this
  rcases p1 with _ | ⟨a, _ | ⟨b, _ | ⟨c, _ | ⟨d, tl⟩⟩⟩⟩
  · simp at h4
  · simp at h4
  · simp at h4
  · simp at h4
  unfold ReadClientHello
  rw [readRecord_enc v1 v2 (a :: b :: c :: d :: tl) (encRecord v1 v2 p2) hv1 hv2 hl1, hrr12]
  dsimp only
  simp only [List.cons_append]
  by_cases hc1 : 4 + (b * 65536 + c * 256 + d) ≤ (a :: b :: c :: d :: tl).length
  · rw [readRecordsUntil_done _ _ _ _ hc1]
    rw [readRecordsUntil_done _ _ _ _ (by simp only [List.length_cons, List.length_append] at hc1 ⊢; omega)]
    dsimp only
    have htake : (a :: b :: c :: d :: (tl ++ p2)).take (4 + (b * 65536 + c * 256 + d)) =
        (a :: b :: c :: d :: tl).take (4 + (b * 65536 + c * 256 + d)) := by
      rw [show (a :: b :: c :: d :: (tl ++ p2)) = (a :: b :: c :: d :: tl) ++ p2 by simp,
        List.take_append_of_le_length hc1]
    rw [htake]
  · rw [readRecordsUntil_step _ _ _ _ _ _ hc1 hrr2]
    by_cases hc2 : 4 + (b * 65536 + c * 256 + d) ≤ (a :: b :: c :: d :: (tl ++ p2)).length
    · rw [readRecordsUntil_done _ _ _ _ (by simpa using hc2)]
      rw [readRecordsUntil_done _ _ _ _ hc2]
      dsimp only
      simp only [List.cons_append]
    · have hfl : (encRecord v1 v2 p2).length = p2.length + 4 + 1 := by
        simp [encRecord]
      rw [hfl]
      rw [readRecordsUntil_err _ _ [] _ .truncated (by simpa using hc2) rfl]
      rw [readRecordsUntil_err _ _ [] _ .truncated hc2 rfl]

/-- Claim C4, witness: the concrete 45-byte handshake message of `b0`
split after 10 payload bytes into two records decodes the same as in one
record. -/
theorem c4_witness :
    ReadClientHello (encRecord 3 1 (chMsgData.take 10) ++ encRecord 3 1 (chMsgData.drop 10)) =
      ReadClientHello (encRecord 3 1 (chMsgData.take 10 ++ chMsgData.drop 10)) :=
  c4_two_record_reassembly 3 1 (chMsgData.take 10) (chMsgData.drop 10)
    (by decide) (by decide) (by decide) (by decide)

end Heybabe
